import Mathlib

/-!
Verification of the data-acquisition and normalization pipeline of
`sebaran_pts.py` (connection resolver, cached loader/normalizer, export
timezone handling), as a shallow embedding in Lean.

Conventions of the embedding:
* a pandas cell is a `Cell`: SQL NULL / NaN (`Cell.null`), text, a numeric
  value (rationals stand in for IEEE floats; the coordinate strings the
  pipeline parses are short decimals, where float rounding is not modelled),
  or a timestamp carrying an optional zone offset in minutes;
* a DataFrame is a list of rows; each row is a structure whose fields are the
  columns selected by the fixed query of `load_data_from_db`;
* exceptions are modelled with `Except`: the loader's query call is an
  `Except String` value supplied by the environment;
* Streamlit effects are modelled as data: `st.error` becomes an error-message
  field of the result, `st.stop` a distinguished `halt` outcome.
-/

/-- A pandas cell: missing (NULL / NaN), text, numeric, or a timestamp whose
second component is the zone offset (`none` means timezone-naive). -/
inductive Cell where
  | null : Cell
  | str (s : String) : Cell
  | num (q : ℚ) : Cell
  | timestamp (wallclock : ℤ) (tzOffset : Option ℤ) : Cell
deriving DecidableEq

/-- Numeric value of a decimal digit character. -/
def digitVal (c : Char) : ℕ := c.toNat - 48

/-- Value of a big-endian list of decimal digit characters. -/
def digitsVal (cs : List Char) : ℕ := cs.foldl (fun a c => 10 * a + digitVal c) 0

/-- Strip one leading sign character, returning whether the value is negated
and the remaining characters, as Python's float parser does. -/
def stripSign (cs : List Char) : Bool × List Char :=
  match cs with
  | [] => (false, [])
  | c :: rest =>
    if c = '-' then (true, rest)
    else if c = '+' then (false, rest)
    else (false, c :: rest)

/-- Split a character list at every period, keeping the (possibly empty)
chunks between them. -/
def splitDots : List Char → List (List Char)
  | [] => [[]]
  | c :: cs =>
    if c = '.' then [] :: splitDots cs
    else
      match splitDots cs with
      | [] => [[c]]
      | h :: t => (c :: h) :: t

/-- Exact value of a parsed decimal: `neg` the sign, `ip` the integer digits,
`fp` the fraction digits. -/
def decValue (neg : Bool) (ip fp : List Char) : ℚ :=
  mkRat (if neg then -((digitsVal ip * 10 ^ fp.length + digitsVal fp : ℕ) : ℤ)
         else ((digitsVal ip * 10 ^ fp.length + digitsVal fp : ℕ) : ℤ))
    (10 ^ fp.length)

/-- Model of `pd.to_numeric(s, errors='coerce')` applied to one string cell:
parse an optionally signed plain decimal numeral (`"-6.123"`, `"999"`,
`".5"`, `"5."`); anything else — in particular a string with two or more
periods — yields the missing-value marker `none` (pandas' `NaN`).
The model covers the plain decimal notation that the comma-repaired
coordinate text can take; exponent notation and surrounding whitespace,
which the source data never contains, are not modelled.
`to_numericCore` is the part after the sign has been split off. -/
def to_numericCore (neg : Bool) (rest : List Char) : Option ℚ :=
  match splitDots rest with
  | [ip] =>
    if ip ≠ [] ∧ ip.all Char.isDigit then some (decValue neg ip []) else none
  | [ip, fp] =>
    if (ip ≠ [] ∨ fp ≠ []) ∧ ip.all Char.isDigit ∧ fp.all Char.isDigit then
      some (decValue neg ip fp)
    else none
  | _ => none

def to_numeric (s : String) : Option ℚ :=
  to_numericCore (stripSign s.data).1 (stripSign s.data).2

/-- Model of `.str.replace(',', '.', regex=False)` on one cell's text: every
comma becomes a period (the replacement pattern is a single character, so
substring replacement coincides with character mapping). -/
def replace_comma (s : String) : String :=
  String.mk (s.data.map fun c => if c = ',' then '.' else c)

/-- Decimal digit characters of a natural number, most significant first
(fuel-driven so that the definition is structurally recursive). -/
def digitsLoop : ℕ → ℕ → List Char → List Char
  | 0, _, acc => acc
  | fuel + 1, n, acc =>
    if n < 10 then Nat.digitChar n :: acc
    else digitsLoop fuel (n / 10) (Nat.digitChar (n % 10) :: acc)

/-- Decimal digit characters of a natural number, most significant first. -/
def natDigits (n : ℕ) : List Char := digitsLoop (n + 1) n []

/-- Number of decimal places of a rational whose denominator divides a power
of ten: the least `k` with `q.den ∣ 10 ^ k`. -/
def decExp (q : ℚ) : ℕ := max (padicValNat 2 q.den) (padicValNat 5 q.den)

/-- Model of Python's `str()` on a float value: the shortest plain decimal
string denoting the value exactly, always with at least one digit on each
side of the period and a leading minus sign for negatives (`str(999.0) =
"999.0"`, `str(-6.123) = "-6.123"`).  Defined for the values the pipeline
produces, i.e. rationals with a power-of-ten denominator; scientific
notation for extreme magnitudes is not modelled.
`padDigits` pads the digit list of the scaled integer part with leading
zeros so that a digit remains left of the period, and `renderDigits` is
that digit list for the value being rendered. -/
def padDigits (k m : ℕ) : List Char :=
  if (natDigits m).length ≤ k then
    List.replicate (k + 1 - (natDigits m).length) '0' ++ natDigits m
  else natDigits m

def renderDigits (q : ℚ) : List Char :=
  padDigits (decExp q) (q.num.natAbs * 10 ^ decExp q / q.den)

def render_float (q : ℚ) : String :=
  String.mk ((if q.num < 0 then ['-'] else []) ++
    (renderDigits q).take ((renderDigits q).length - decExp q) ++
    '.' :: (if decExp q = 0 then ['0']
            else (renderDigits q).drop ((renderDigits q).length - decExp q)))

/-- Model of Python's `str()` / pandas `astype(str)` on one cell: text is kept
as is, a missing value stringifies as `"nan"` (the string form of `NaN`),
numbers render as `render_float`.  Timestamp cells never occur in the columns
the script stringifies, so their rendering is an opaque constant. -/
def py_str : Cell → String
  | Cell.null => "nan"
  | Cell.str s => s
  | Cell.num q => render_float q
  | Cell.timestamp _ _ => "Timestamp"

/-- One coordinate cell through the cleaning chain of lines 111-116:
`astype(str)`, then `.str.replace(',', '.')`, then
`pd.to_numeric(errors='coerce')`.  (`to_numeric "nan"` is pandas' `NaN`;
both are the missing marker `none` here, which line 119's `dropna` removes
either way.) -/
def clean_coord (c : Cell) : Option ℚ := to_numeric (replace_comma (py_str c))

/-- One designated text cell through line 107: `fillna("-")` then
`astype(str)`. -/
def fill_text (c : Cell) : Cell :=
  match c with
  | Cell.null => Cell.str "-"
  | c => Cell.str (py_str c)

/-- Model of `pd.to_datetime(col).dt.tz_localize(None)` (line 227): a
timezone-aware timestamp keeps its wall-clock value and loses the offset;
any other cell is unchanged. -/
def tz_localize_none : Cell → Cell
  | Cell.timestamp t _ => Cell.timestamp t none
  | c => c

/-- A row of the fixed query's result (`SELECT ... FROM public.profil_pts`),
one field per selected column. -/
structure RawRow where
  id : Cell := Cell.null
  kode_pts : Cell := Cell.null
  nama : Cell := Cell.null
  status_pt : Cell := Cell.null
  singkatan : Cell := Cell.null
  alamat : Cell := Cell.null
  kota_kab : Cell := Cell.null
  provinsi : Cell := Cell.null
  kode_pos : Cell := Cell.null
  latitude : Cell := Cell.null
  longitude : Cell := Cell.null
  no_telp : Cell := Cell.null
  no_fax : Cell := Cell.null
  email : Cell := Cell.null
  website : Cell := Cell.null
  created_at : Cell := Cell.null
deriving DecidableEq

/-- A row of the table `load_data_from_db` returns: the renamed columns
(`kota`, `propinsi`, `lat_raw`, `lon_raw`), the text columns after
null-filling, and the parsed coordinate columns `lat` / `lon` (a numeric
pandas column with `NaN` as `none`). -/
structure CanonRow where
  id : Cell
  kode_pts : Cell
  nama : Cell
  status_pt : Cell
  singkatan : Cell
  alamat : Cell
  kota : Cell
  propinsi : Cell
  kode_pos : Cell
  lat_raw : Cell
  lon_raw : Cell
  no_telp : Cell
  no_fax : Cell
  email : Cell
  website : Cell
  created_at : Cell
  lat : Option ℚ
  lon : Option ℚ
deriving DecidableEq

/-- The per-row effect of `load_data_from_db`'s transformation steps: the
renames of lines 91-96, the text-column filling of lines 99-107, and the
coordinate cleaning of lines 111-116.  (`id` and `created_at` are in none of
the treated column lists and pass through; `lat_raw` / `lon_raw` keep the
raw source text.) -/
def canonRow (r : RawRow) : CanonRow where
  id := r.id
  kode_pts := fill_text r.kode_pts
  nama := fill_text r.nama
  status_pt := fill_text r.status_pt
  singkatan := fill_text r.singkatan
  alamat := fill_text r.alamat
  kota := fill_text r.kota_kab
  propinsi := fill_text r.provinsi
  kode_pos := fill_text r.kode_pos
  lat_raw := r.latitude
  lon_raw := r.longitude
  no_telp := fill_text r.no_telp
  no_fax := fill_text r.no_fax
  email := fill_text r.email
  website := fill_text r.website
  created_at := r.created_at
  lat := clean_coord r.latitude
  lon := clean_coord r.longitude

/-- The table-level body of `load_data_from_db`'s `try` block after the
query returned: empty in, empty out (line 86-87); otherwise transform every
row and keep only those whose cleaned coordinates both parsed
(line 119's `dropna(subset=['lat', 'lon'])`). -/
def loadTable (rows : List RawRow) : List CanonRow :=
  if rows.isEmpty then []
  else (rows.map canonRow).filter fun r => r.lat.isSome && r.lon.isSome

/-- The whole `try` block of `load_data_from_db` (lines 62-121): the query —
whose outcome, a row list or a raised exception, is the `fetch` argument —
followed by the transformation steps. -/
def loadBody (fetch : Except String (List RawRow)) : Except String (List CanonRow) :=
  Except.map loadTable fetch

/-- Result of one (uncached) run of `load_data_from_db`: the returned table,
plus the message passed to `st.error` when an exception was caught (`none`
when no error surfaced). -/
structure LoadResult where
  table : List CanonRow
  errorMsg : Option String
deriving DecidableEq

/-- Model of `load_data_from_db` (lines 61-125): any exception from the fetch
is caught by the top-level `except` (lines 123-125), surfaced through
`st.error`, and turned into an empty DataFrame return value. -/
def load_data_from_db (fetch : Except String (List RawRow)) : LoadResult :=
  match loadBody fetch with
  | Except.ok t => { table := t, errorMsg := none }
  | Except.error e =>
    { table := [], errorMsg := some ("Error saat mengambil data dari database: " ++ e) }

/-- The query runner `_build_query_runner` can produce: the managed
`st.connection` wrapper `_run_query_streamlit`, or the SQLAlchemy-engine
wrapper `_run_query_engine` built from a connection string. -/
inductive QueryRunner where
  | managed : QueryRunner
  | engine (dbUrl : String) : QueryRunner
deriving DecidableEq

/-- Outcome of `_build_query_runner`: a runner, or the fatal
`st.error` + `st.stop` path of lines 44-45. -/
inductive ResolveOutcome where
  | runner (r : QueryRunner) : ResolveOutcome
  | halt (msg : String) : ResolveOutcome
deriving DecidableEq

/-- Environment `_build_query_runner` runs in: whether
`st.connection("postgresql", type="sql")` constructs or raises, whether the
liveness probe `conn.query("SELECT 1 as ok;")` succeeds or raises, the entry
stored under `DATABASE_URL` in `st.secrets` (`none` when absent), and the
process environment variable `DATABASE_URL` (`none` when unset). -/
structure ConnEnv where
  managed : Except String Unit
  probe : Except String Unit
  secretsDB : Option String
  envDB : Option String

/-- The fatal configuration message of line 44. -/
def noDbMsg : String :=
  "Koneksi DB tidak dikonfigurasi. Pastikan 'connections.postgresql' ada di secrets.toml atau environment variable 'DATABASE_URL' diset."

/-- The fallback strategy of lines 42-52: `db_url =
st.secrets.get("DATABASE_URL", os.getenv("DATABASE_URL", ""))` — the stored
secret entry if the key is present (even when it is the empty string),
otherwise the environment variable, otherwise `""` — then `st.error` and
`st.stop` on an empty string, else the engine-backed runner. -/
def fallbackEngine (e : ConnEnv) : ResolveOutcome :=
  let dbUrl := e.secretsDB.getD (e.envDB.getD "")
  if dbUrl = "" then ResolveOutcome.halt noDbMsg
  else ResolveOutcome.runner (QueryRunner.engine dbUrl)

/-- Model of `_build_query_runner` (lines 24-52): try the managed connection
and its liveness probe inside one `try`; any exception from either falls
through (`except Exception: pass`) to the fallback strategy; if both
succeed, the managed runner is returned at line 37. -/
def build_query_runner (e : ConnEnv) : ResolveOutcome :=
  match e.managed with
  | Except.ok _ =>
    match e.probe with
    | Except.ok _ => ResolveOutcome.runner QueryRunner.managed
    | Except.error _ => fallbackEngine e
  | Except.error _ => fallbackEngine e

/-- TTL of the `st.cache_data` decorator on `load_data_from_db` (line 60),
in seconds. -/
def cacheTTL : ℕ := 300

/-- State of the `st.cache_data` memo for `load_data_from_db`: nothing yet,
or the instant a value was stored together with that value. -/
structure CacheState where
  entry : Option (ℕ × LoadResult)
deriving DecidableEq

/-- Outcome of one call to the cached `load_data_from_db`: the value handed
to the caller, the cache state afterwards, and whether this call actually
ran the body (and hence issued the query). -/
structure CacheStep where
  result : LoadResult
  state : CacheState
  queried : Bool
deriving DecidableEq

/-- Model of one call to `load_data_from_db` under `@st.cache_data(ttl=300)`
at time `now` (seconds): a stored value younger than the TTL is returned
without running the body; otherwise the body runs once and its value is
stored with the current time. -/
def cachedLoad (fetch : Except String (List RawRow)) (st : CacheState) (now : ℕ) : CacheStep :=
  match st.entry with
  | some (t0, v) =>
    if now - t0 < cacheTTL then { result := v, state := st, queried := false }
    else
      { result := load_data_from_db fetch
        state := { entry := some (now, load_data_from_db fetch) }
        queried := true }
  | none =>
    { result := load_data_from_db fetch
      state := { entry := some (now, load_data_from_db fetch) }
      queried := true }

/-- The per-row effect of the export-path copy (lines 222-227): `df_export`
is a copy of the loaded table in which `created_at` is passed through
`pd.to_datetime(...).dt.tz_localize(None)`; every other column is untouched. -/
def exportRow (r : CanonRow) : CanonRow :=
  { r with created_at := tz_localize_none r.created_at }

/-- Model of building `df_export` (line 222-227) from the loaded table. -/
def df_export (t : List CanonRow) : List CanonRow := t.map exportRow

/-- Raw row whose coordinate text is well-formed but far outside the
latitude range: the loader keeps it. -/
def rowOutOfRange : RawRow :=
  { latitude := Cell.str "999,0", longitude := Cell.str "110,0" }

/-- Raw row carrying a timezone-aware `created_at` (offset `+07:00`, i.e.
420 minutes) and valid coordinates. -/
def rowAware : RawRow :=
  { latitude := Cell.str "-6,2", longitude := Cell.str "106,8",
    created_at := Cell.timestamp 1700000000 (some 420) }

/-- Raw row with the spec's example coordinate text. -/
def rowComma : RawRow :=
  { latitude := Cell.str "-6,123", longitude := Cell.str "110,456" }

/-- Raw row whose latitude text has two commas (thousands-separated style). -/
def rowTwoCommas : RawRow :=
  { latitude := Cell.str "1,234,5", longitude := Cell.str "110,0" }

/-- Connection environment where the managed connection is never built and
the secret store holds an empty `DATABASE_URL` while the process environment
holds a usable one. -/
def envEmptySecret : ConnEnv :=
  { managed := Except.error "connections.postgresql missing",
    probe := Except.error "no connection",
    secretsDB := some "",
    envDB := some "postgresql://user:pw@host/db" }

/-- Connection environment where the managed connection constructs but its
liveness probe raises, and a connection string is configured in the secret
store. -/
def envProbeFail : ConnEnv :=
  { managed := Except.ok (),
    probe := Except.error "could not connect to server",
    secretsDB := some "postgresql://user:pw@host/db",
    envDB := none }

/-- Every row of the returned table comes from mapping `canonRow` over a
successfully fetched row list and surviving the coordinate filter. -/
theorem mem_load_table {fetch : Except String (List RawRow)} {r : CanonRow}
    (h : r ∈ (load_data_from_db fetch).table) :
    ∃ rows, fetch = Except.ok rows ∧ ∃ s, s ∈ rows ∧ r = canonRow s ∧
      r.lat.isSome = true ∧ r.lon.isSome = true := by
  cases hf : fetch with
  | error e => rw [hf] at h; simp [load_data_from_db, loadBody, Except.map] at h
  | ok rows =>
    rw [hf] at h
    have h' : r ∈ loadTable rows := h
    unfold loadTable at h'
    by_cases he : rows.isEmpty
    · rw [if_pos he] at h'; simp at h'
    · rw [if_neg he] at h'
      obtain ⟨hm, hcond⟩ := List.mem_filter.mp h'
      obtain ⟨s, hs, rfl⟩ := List.mem_map.mp hm
      rw [Bool.and_eq_true] at hcond
      exact ⟨rows, rfl, s, hs, rfl, hcond.1, hcond.2⟩

/-- C1 (counterexample): the loader retains a row whose latitude text parses
to 999, far outside the -90..90 range the claim asserts for every retained
row — the code only filters unparsable coordinates, it checks no range. -/
theorem claim_C1_counterexample :
    ∃ r, r ∈ (load_data_from_db (Except.ok [rowOutOfRange])).table ∧
      r.lat = some (999 : ℚ) ∧ ¬((999 : ℚ) ≤ 90) :=
  ⟨canonRow rowOutOfRange, by decide, by decide, by decide⟩

/-- C1 (amended): every row of the table returned under the drop-invalid
policy has `lat` and `lon` present as parsed numeric values, obtained by the
coordinate-cleaning chain from the raw text; no latitude/longitude range
check is applied. -/
theorem claim_C1 (fetch : Except String (List RawRow)) (r : CanonRow)
    (h : r ∈ (load_data_from_db fetch).table) :
    (∃ a, r.lat = some a) ∧ (∃ b, r.lon = some b) ∧
    ∃ rows, fetch = Except.ok rows ∧ ∃ s, s ∈ rows ∧
      r.lat = clean_coord s.latitude ∧ r.lon = clean_coord s.longitude := by
  obtain ⟨rows, hf, s, hs, rfl, hlat, hlon⟩ := mem_load_table h
  refine ⟨?_, ?_, rows, hf, s, hs, rfl, rfl⟩
  · exact Option.isSome_iff_exists.mp hlat
  · exact Option.isSome_iff_exists.mp hlon

/-- C1 (witness): the amended theorem applied to the spec's example row. -/
theorem claim_C1_witness :
    (canonRow rowComma ∈ (load_data_from_db (Except.ok [rowComma])).table) ∧
    (∃ a, (canonRow rowComma).lat = some a) :=
  ⟨by decide, (claim_C1 (Except.ok [rowComma]) (canonRow rowComma) (by decide)).1⟩

/-- C2 (counterexample): a timezone-aware `created_at` reaches the table
returned by `load_data_from_db` with its offset intact — the loader never
touches the column, so the timezone is not stripped in place before
returning. -/
theorem claim_C2_counterexample :
    ∃ r, r ∈ (load_data_from_db (Except.ok [rowAware])).table ∧
      r.created_at = Cell.timestamp 1700000000 (some 420) ∧
      r.created_at ≠ Cell.timestamp 1700000000 none :=
  ⟨canonRow rowAware, by decide, by decide, by decide⟩

/-- C2 (amended): `load_data_from_db` returns `created_at` unchanged,
timezone included; the timezone component is stripped — wall-clock value
preserved — only in the export copy `df_export` built by the download
section, one row at a time. -/
theorem claim_C2 :
    (∀ r : RawRow, (canonRow r).created_at = r.created_at) ∧
    (∀ (t : ℤ) (o : Option ℤ),
      tz_localize_none (Cell.timestamp t o) = Cell.timestamp t none) ∧
    (∀ (tbl : List CanonRow) (r : CanonRow), r ∈ df_export tbl →
      ∃ s, s ∈ tbl ∧ r = exportRow s ∧
        r.created_at = tz_localize_none s.created_at) := by
  refine ⟨fun r => rfl, fun t o => rfl, fun tbl r hr => ?_⟩
  obtain ⟨s, hs, rfl⟩ := List.mem_map.mp hr
  exact ⟨s, hs, rfl, rfl⟩

/-- C2 (witness): the amended theorem applied to the export of the
timezone-aware example row. -/
theorem claim_C2_witness :
    ∃ s, s ∈ [canonRow rowAware] ∧ exportRow (canonRow rowAware) = exportRow s ∧
      (exportRow (canonRow rowAware)).created_at = tz_localize_none s.created_at :=
  claim_C2.2.2 [canonRow rowAware] (exportRow (canonRow rowAware)) (by decide)

/-- C3: raw coordinate text `"-6,123"` / `"110,456"` passes the
comma-to-period substitution and numeric parse yielding exactly
`-6.123` / `110.456`, and the row is retained in the returned table. -/
theorem claim_C3 :
    (load_data_from_db (Except.ok [rowComma])).table = [canonRow rowComma] ∧
    (canonRow rowComma).lat = some (-6123 / 1000 : ℚ) ∧
    (canonRow rowComma).lon = some (110456 / 1000 : ℚ) := by
  refine ⟨by decide, ?_, ?_⟩
  · rw [show (canonRow rowComma).lat = some (mkRat (-6123) 1000) from by decide,
      Rat.mkRat_eq_div]
    norm_num
  · rw [show (canonRow rowComma).lon = some (mkRat 110456 1000) from by decide,
      Rat.mkRat_eq_div]
    norm_num

/-- C4: whenever the body of the `try` block — the fetch followed by the
transformation steps — raises, `load_data_from_db` catches the exception at
its top level, surfaces it as the non-fatal `st.error` message, and returns
an empty table instead of propagating. -/
theorem claim_C4 (fetch : Except String (List RawRow)) (e : String)
    (h : loadBody fetch = Except.error e) :
    load_data_from_db fetch =
      { table := [],
        errorMsg := some ("Error saat mengambil data dari database: " ++ e) } := by
  unfold load_data_from_db
  rw [h]

/-- C4 (witness): a raising fetch produces the empty table and the surfaced
message. -/
theorem claim_C4_witness :
    load_data_from_db (Except.error "connection refused") =
      { table := [],
        errorMsg := some ("Error saat mengambil data dari database: " ++ "connection refused") } :=
  claim_C4 (Except.error "connection refused") "connection refused" rfl

/-- C5: with the managed connection constructed, a raising liveness probe
sends the resolver to the direct-engine fallback strategy, while a
succeeding probe returns the managed runner with no fallback attempted. -/
theorem claim_C5 (e : ConnEnv) (u : Unit) (h : e.managed = Except.ok u) :
    (∀ msg, e.probe = Except.error msg → build_query_runner e = fallbackEngine e) ∧
    (∀ v : Unit, e.probe = Except.ok v →
      build_query_runner e = ResolveOutcome.runner QueryRunner.managed) := by
  constructor
  · intro msg hp
    unfold build_query_runner
    rw [h, hp]
  · intro v hp
    unfold build_query_runner
    rw [h, hp]

/-- C5 (witness): both probe outcomes at concrete environments. -/
theorem claim_C5_witness :
    build_query_runner envProbeFail = fallbackEngine envProbeFail ∧
    build_query_runner { envProbeFail with probe := Except.ok () } =
      ResolveOutcome.runner QueryRunner.managed :=
  ⟨(claim_C5 envProbeFail () rfl).1 "could not connect to server" rfl,
   (claim_C5 { envProbeFail with probe := Except.ok () } () rfl).2 () rfl⟩

/-- C6 (counterexample): with the managed strategy unavailable and the
secret store holding a present-but-empty `DATABASE_URL`, the resolver halts
fatally even though the process environment variable yields a non-empty
connection string — the environment variable is never consulted. -/
theorem claim_C6_counterexample :
    build_query_runner envEmptySecret = ResolveOutcome.halt noDbMsg ∧
    envEmptySecret.envDB = some "postgresql://user:pw@host/db" ∧
    "postgresql://user:pw@host/db" ≠ "" :=
  ⟨by decide, rfl, by decide⟩

/-- C6 (amended): when the managed strategy is unavailable (its construction
or its probe raised), the resolver computes the connection string as the
secret-store entry whenever the key is present — even when that entry is
empty — and only with no stored entry at all falls back to the environment
variable; it halts with the fatal configuration error exactly when the
resulting string is empty. -/
theorem claim_C6 (e : ConnEnv)
    (h : (∃ m, e.managed = Except.error m) ∨ (∃ m, e.probe = Except.error m)) :
    build_query_runner e = fallbackEngine e ∧
    (∀ s, e.secretsDB = some s → s ≠ "" →
      fallbackEngine e = ResolveOutcome.runner (QueryRunner.engine s)) ∧
    (e.secretsDB = some "" → fallbackEngine e = ResolveOutcome.halt noDbMsg) ∧
    (∀ s, e.secretsDB = none → e.envDB = some s → s ≠ "" →
      fallbackEngine e = ResolveOutcome.runner (QueryRunner.engine s)) ∧
    (e.secretsDB = none → (e.envDB = none ∨ e.envDB = some "") →
      fallbackEngine e = ResolveOutcome.halt noDbMsg) := by
  refine ⟨?_, ?_, ?_, ?_, ?_⟩
  · rcases h with ⟨m, hm⟩ | ⟨m, hm⟩
    · unfold build_query_runner
      rw [hm]
    · unfold build_query_runner
      cases hmg : e.managed with
      | ok u => rw [hm]
      | error msg => rfl
  · intro s hs hne
    unfold fallbackEngine
    rw [hs]
    simp [hne]
  · intro hs
    unfold fallbackEngine
    rw [hs]
    rfl
  · intro s hs henv hne
    unfold fallbackEngine
    rw [hs, henv]
    simp [hne]
  · intro hs henv
    unfold fallbackEngine
    rw [hs]
    rcases henv with h' | h' <;> rw [h'] <;> rfl

/-- C6 (witness): the amended theorem applied to the empty-secret
environment, confirming the fatal halt despite the configured environment
variable. -/
theorem claim_C6_witness :
    build_query_runner envEmptySecret = fallbackEngine envEmptySecret ∧
    fallbackEngine envEmptySecret = ResolveOutcome.halt noDbMsg :=
  ⟨(claim_C6 envEmptySecret (Or.inl ⟨"connections.postgresql missing", rfl⟩)).1,
   (claim_C6 envEmptySecret (Or.inl ⟨"connections.postgresql missing", rfl⟩)).2.2.1 rfl⟩

/-- C7: in the returned table every designated text attribute equals the
source cell passed through `fill_text`, which never yields a missing value:
a missing source cell becomes exactly the sentinel `"-"` and every other
cell is coerced to its text representation. -/
theorem claim_C7 :
    (fill_text Cell.null = Cell.str "-") ∧
    (∀ c : Cell, ∃ s, fill_text c = Cell.str s) ∧
    (∀ (fetch : Except String (List RawRow)) (r : CanonRow),
      r ∈ (load_data_from_db fetch).table →
      ∃ rows, fetch = Except.ok rows ∧ ∃ s, s ∈ rows ∧
        r.kode_pts = fill_text s.kode_pts ∧ r.nama = fill_text s.nama ∧
        r.status_pt = fill_text s.status_pt ∧ r.singkatan = fill_text s.singkatan ∧
        r.alamat = fill_text s.alamat ∧ r.kota = fill_text s.kota_kab ∧
        r.propinsi = fill_text s.provinsi ∧ r.kode_pos = fill_text s.kode_pos ∧
        r.no_telp = fill_text s.no_telp ∧ r.no_fax = fill_text s.no_fax ∧
        r.email = fill_text s.email ∧ r.website = fill_text s.website) := by
  refine ⟨rfl, fun c => ?_, fun fetch r hr => ?_⟩
  · cases c with
    | null => exact ⟨"-", rfl⟩
    | str s => exact ⟨s, rfl⟩
    | num q => exact ⟨render_float q, rfl⟩
    | timestamp t o => exact ⟨"Timestamp", rfl⟩
  · obtain ⟨rows, hf, s, hs, rfl, _, _⟩ := mem_load_table hr
    exact ⟨rows, hf, s, hs, rfl, rfl, rfl, rfl, rfl, rfl, rfl, rfl, rfl, rfl, rfl, rfl⟩

/-- C7 (witness): the membership part applied to a concrete row with a
missing text attribute. -/
theorem claim_C7_witness :
    ∃ rows, (Except.ok [rowComma] : Except String (List RawRow)) = Except.ok rows ∧
      ∃ s, s ∈ rows ∧
        (canonRow rowComma).kode_pts = fill_text s.kode_pts ∧
        (canonRow rowComma).nama = fill_text s.nama ∧
        (canonRow rowComma).status_pt = fill_text s.status_pt ∧
        (canonRow rowComma).singkatan = fill_text s.singkatan ∧
        (canonRow rowComma).alamat = fill_text s.alamat ∧
        (canonRow rowComma).kota = fill_text s.kota_kab ∧
        (canonRow rowComma).propinsi = fill_text s.provinsi ∧
        (canonRow rowComma).kode_pos = fill_text s.kode_pos ∧
        (canonRow rowComma).no_telp = fill_text s.no_telp ∧
        (canonRow rowComma).no_fax = fill_text s.no_fax ∧
        (canonRow rowComma).email = fill_text s.email ∧
        (canonRow rowComma).website = fill_text s.website :=
  claim_C7.2.2 (Except.ok [rowComma]) (canonRow rowComma) (by decide)

/-- C9: under the fixed 300-second TTL memoization, the first call runs the
query; a second call strictly inside the TTL window runs no query and
returns the cached result unchanged, so the query ran at most once; the
first call at or past expiry runs the body — and hence the query — exactly
once more. -/
theorem claim_C9 (fetch : Except String (List RawRow)) (t0 t1 : ℕ) :
    ((cachedLoad fetch { entry := none } t0).queried = true) ∧
    (t1 - t0 < cacheTTL →
      (cachedLoad fetch (cachedLoad fetch { entry := none } t0).state t1).queried = false ∧
      (cachedLoad fetch (cachedLoad fetch { entry := none } t0).state t1).result =
        (cachedLoad fetch { entry := none } t0).result) ∧
    (cacheTTL ≤ t1 - t0 →
      (cachedLoad fetch (cachedLoad fetch { entry := none } t0).state t1).queried = true) := by
  refine ⟨rfl, fun hin => ?_, fun hout => ?_⟩
  · constructor
    · show (cachedLoad fetch { entry := some (t0, load_data_from_db fetch) } t1).queried = false
      simp only [cachedLoad]
      rw [if_pos hin]
    · show (cachedLoad fetch { entry := some (t0, load_data_from_db fetch) } t1).result =
        load_data_from_db fetch
      simp only [cachedLoad]
      rw [if_pos hin]
  · show (cachedLoad fetch { entry := some (t0, load_data_from_db fetch) } t1).queried = true
    simp only [cachedLoad]
    rw [if_neg (not_lt.mpr hout)]

/-- C9 (witness): a second call 100 seconds after the first is served from
the cache; a call 300 seconds after is recomputed. -/
theorem claim_C9_witness :
    ((100 : ℕ) - 0 < cacheTTL ∧
      (cachedLoad (Except.error "x") (cachedLoad (Except.error "x") { entry := none } 0).state
        100).queried = false) ∧
    (cacheTTL ≤ (300 : ℕ) - 0 ∧
      (cachedLoad (Except.error "x") (cachedLoad (Except.error "x") { entry := none } 0).state
        300).queried = true) :=
  ⟨⟨by decide, ((claim_C9 (Except.error "x") 0 100).2.1 (by decide)).1⟩,
   ⟨by decide, (claim_C9 (Except.error "x") 0 300).2.2 (by decide)⟩⟩

/-- Count of a prepended character, phrased with propositional equality. -/
theorem count_cons_eq (b a : Char) (l : List Char) :
    (b :: l).count a = l.count a + if b = a then 1 else 0 := by
  simp [List.count_cons]

/-- Replacement of commas leaves no comma behind. -/
theorem count_comma_replace (s : String) :
    (replace_comma s).data.count ',' = 0 := by
  show (s.data.map fun c => if c = ',' then '.' else c).count ',' = 0
  induction s.data with
  | nil => rfl
  | cons c cs ih =>
    by_cases hc : c = ','
    · subst hc
      rw [List.map_cons, if_pos rfl, count_cons_eq, ih,
        if_neg (by decide : ¬ ('.' : Char) = ',')]
    · rw [List.map_cons, if_neg hc, count_cons_eq, ih, if_neg hc]

/-- Replacement of commas turns every comma into an additional period. -/
theorem count_dot_replace (s : String) :
    (replace_comma s).data.count '.' = s.data.count ',' + s.data.count '.' := by
  show (s.data.map fun c => if c = ',' then '.' else c).count '.' =
    s.data.count ',' + s.data.count '.'
  induction s.data with
  | nil => rfl
  | cons c cs ih =>
    by_cases hc : c = ','
    · subst hc
      rw [List.map_cons, if_pos rfl, count_cons_eq, ih, count_cons_eq, count_cons_eq,
        if_pos (by decide : ('.' : Char) = '.'), if_pos (by decide : (',' : Char) = ','),
        if_neg (by decide : ¬ (',' : Char) = '.')]
      omega
    · by_cases hd : c = '.'
      · subst hd
        rw [List.map_cons, if_neg hc, count_cons_eq, ih, count_cons_eq, count_cons_eq,
          if_pos (by decide : ('.' : Char) = '.'), if_neg hc]
        omega
      · rw [List.map_cons, if_neg hc, count_cons_eq, ih, count_cons_eq, count_cons_eq,
          if_neg hd, if_neg hc]
        omega

/-- Stripping a leading sign character does not change the period count. -/
theorem stripSign_count_dot (cs : List Char) :
    (stripSign cs).2.count '.' = cs.count '.' := by
  cases cs with
  | nil => rfl
  | cons c rest =>
    simp only [stripSign]
    by_cases h1 : c = '-'
    · subst h1
      rw [if_pos rfl]
      rw [count_cons_eq, if_neg (by decide : ¬ ('-' : Char) = '.')]
      simp
    · by_cases h2 : c = '+'
      · subst h2
        rw [if_neg h1, if_pos rfl]
        rw [count_cons_eq, if_neg (by decide : ¬ ('+' : Char) = '.')]
        simp
      · rw [if_neg h1, if_neg h2]

/-- The period splitter never returns an empty chunk list. -/
theorem splitDots_ne_nil (cs : List Char) : splitDots cs ≠ [] := by
  cases cs with
  | nil => simp [splitDots]
  | cons c cs =>
    unfold splitDots
    by_cases h : c = '.'
    · rw [if_pos h]
      simp
    · rw [if_neg h]
      cases hs : splitDots cs with
      | nil => simp
      | cons hd tl => simp

/-- The period splitter produces one chunk more than there are periods. -/
theorem splitDots_length (cs : List Char) :
    (splitDots cs).length = cs.count '.' + 1 := by
  induction cs with
  | nil => rfl
  | cons c cs ih =>
    unfold splitDots
    by_cases h : c = '.'
    · subst h
      rw [if_pos rfl, List.length_cons, ih, count_cons_eq,
        if_pos (by decide : ('.' : Char) = '.')]
    · rw [if_neg h]
      cases hs : splitDots cs with
      | nil => exact absurd hs (splitDots_ne_nil cs)
      | cons hd tl =>
        rw [hs] at ih
        show ((c :: hd) :: tl).length = List.count '.' (c :: cs) + 1
        rw [List.length_cons, count_cons_eq, if_neg h]
        rw [List.length_cons] at ih
        omega

/-- A character list containing at least two periods fails the numeric
parse. -/
theorem to_numericCore_two_dots (neg : Bool) (rest : List Char)
    (h : 2 ≤ rest.count '.') : to_numericCore neg rest = none := by
  have hlen : 3 ≤ (splitDots rest).length := by
    rw [splitDots_length]
    omega
  cases hsd : splitDots rest with
  | nil => rw [hsd] at hlen; simp at hlen
  | cons a l =>
    cases l with
    | nil => rw [hsd] at hlen; simp at hlen
    | cons b l2 =>
      cases l2 with
      | nil => rw [hsd] at hlen; simp at hlen
      | cons c t =>
        unfold to_numericCore
        rw [hsd]

/-- A string whose text contains at least two periods coerces to the missing
marker. -/
theorem to_numeric_two_dots (s : String) (h : 2 ≤ s.data.count '.') :
    to_numeric s = none := by
  unfold to_numeric
  apply to_numericCore_two_dots
  rw [stripSign_count_dot]
  exact h

/-- C10: a raw coordinate text with more than one comma has every comma
replaced by a period, the resulting string — now holding at least two
periods — fails the numeric parse, and the row is dropped from the table
`load_data_from_db` returns. -/
theorem claim_C10 (fetch : Except String (List RawRow)) (rows : List RawRow) (r : RawRow)
    (_hf : fetch = Except.ok rows) (_hr : r ∈ rows)
    (hc : 2 ≤ (py_str r.latitude).data.count ',') :
    (replace_comma (py_str r.latitude)).data.count ',' = 0 ∧
    2 ≤ (replace_comma (py_str r.latitude)).data.count '.' ∧
    clean_coord r.latitude = none ∧
    canonRow r ∉ (load_data_from_db fetch).table := by
  have h2 : 2 ≤ (replace_comma (py_str r.latitude)).data.count '.' := by
    rw [count_dot_replace]
    omega
  have h3 : clean_coord r.latitude = none := to_numeric_two_dots _ h2
  refine ⟨count_comma_replace _, h2, h3, fun hmem => ?_⟩
  obtain ⟨rows', hf', s, hs, heq, hlat, hlon⟩ := mem_load_table hmem
  rw [show (canonRow r).lat = clean_coord r.latitude from rfl, h3] at hlat
  exact Bool.false_ne_true hlat

/-- C10 (witness): the thousands-separated latitude text `"1,234,5"` is
dropped. -/
theorem claim_C10_witness :
    (2 ≤ (py_str rowTwoCommas.latitude).data.count ',') ∧
    clean_coord rowTwoCommas.latitude = none ∧
    canonRow rowTwoCommas ∉ (load_data_from_db (Except.ok [rowTwoCommas])).table :=
  ⟨by decide,
   (claim_C10 (Except.ok [rowTwoCommas]) [rowTwoCommas] rowTwoCommas rfl
     (by decide) (by decide)).2.2.1,
   (claim_C10 (Except.ok [rowTwoCommas]) [rowTwoCommas] rowTwoCommas rfl
     (by decide) (by decide)).2.2.2⟩

/-- Every digit value below ten renders to a character that reads back to the
same value. -/
theorem digitChar_spec (d : ℕ) (h : d < 10) :
    (Nat.digitChar d).isDigit = true ∧ digitVal (Nat.digitChar d) = d := by
  interval_cases d <;> exact ⟨by decide, by decide⟩

/-- A digit character is none of the structural characters of a decimal
string. -/
theorem isDigit_ne (c : Char) (h : c.isDigit = true) :
    c ≠ '.' ∧ c ≠ ',' ∧ c ≠ '-' ∧ c ≠ '+' := by
  refine ⟨fun he => ?_, fun he => ?_, fun he => ?_, fun he => ?_⟩ <;>
    (subst he; exact absurd h (by decide))

/-- The digit accumulator only prepends to its accumulator argument. -/
theorem digitsLoop_acc (fuel : ℕ) : ∀ (n : ℕ) (acc : List Char),
    digitsLoop fuel n acc = digitsLoop fuel n [] ++ acc := by
  induction fuel with
  | zero => intro n acc; rfl
  | succ fuel ih =>
    intro n acc
    unfold digitsLoop
    by_cases h : n < 10
    · rw [if_pos h, if_pos h]
      rfl
    · rw [if_neg h, if_neg h, ih (n / 10) (Nat.digitChar (n % 10) :: acc),
        ih (n / 10) [Nat.digitChar (n % 10)], List.append_assoc]
      rfl

/-- Any sufficient fuel produces the same digit list. -/
theorem digitsLoop_fuel : ∀ (n fuel1 fuel2 : ℕ), n < fuel1 → n < fuel2 →
    digitsLoop fuel1 n [] = digitsLoop fuel2 n [] := by
  intro n
  induction n using Nat.strong_induction_on with
  | _ n ih =>
    intro fuel1 fuel2 h1 h2
    cases fuel1 with
    | zero => omega
    | succ f1 =>
      cases fuel2 with
      | zero => omega
      | succ f2 =>
        unfold digitsLoop
        by_cases h : n < 10
        · rw [if_pos h, if_pos h]
        · rw [if_neg h, if_neg h, digitsLoop_acc f1, digitsLoop_acc f2]
          have hd : n / 10 < n := Nat.div_lt_self (by omega) (by omega)
          rw [ih (n / 10) hd f1 f2 (by omega) (by omega)]

/-- Folding the digit-reading step from an arbitrary accumulator. -/
theorem digitsVal_from (cs : List Char) : ∀ a : ℕ,
    cs.foldl (fun x c => 10 * x + digitVal c) a = a * 10 ^ cs.length + digitsVal cs := by
  induction cs with
  | nil => intro a; simp [digitsVal]
  | cons c cs ih =>
    intro a
    rw [List.foldl_cons, ih (10 * a + digitVal c)]
    have hv : digitsVal (c :: cs) = cs.foldl (fun x c => 10 * x + digitVal c) (10 * 0 + digitVal c) := rfl
    rw [hv, ih (10 * 0 + digitVal c), List.length_cons]
    ring

/-- Reading digits distributes over list append. -/
theorem digitsVal_append (a b : List Char) :
    digitsVal (a ++ b) = digitsVal a * 10 ^ b.length + digitsVal b := by
  show (a ++ b).foldl (fun x c => 10 * x + digitVal c) 0 = _
  rw [List.foldl_append, digitsVal_from b]
  rfl

/-- Leading zero characters do not change the value read back. -/
theorem digitsVal_replicate_zero (j : ℕ) (l : List Char) :
    digitsVal (List.replicate j '0' ++ l) = digitsVal l := by
  rw [digitsVal_append]
  have hz : digitsVal (List.replicate j '0') = 0 := by
    induction j with
    | zero => rfl
    | succ j ihj =>
      rw [List.replicate_succ]
      show (List.replicate j '0').foldl (fun x c => 10 * x + digitVal c) (10 * 0 + digitVal '0') = 0
      rw [show 10 * 0 + digitVal '0' = 0 from by decide]
      exact ihj
  rw [hz]
  omega

/-- Reading back the rendered digits of a natural number recovers it. -/
theorem digitsVal_natDigits : ∀ n : ℕ, digitsVal (natDigits n) = n := by
  intro n
  induction n using Nat.strong_induction_on with
  | _ n ih =>
    unfold natDigits digitsLoop
    by_cases h : n < 10
    · rw [if_pos h]
      show 10 * 0 + digitVal (Nat.digitChar n) = n
      rw [(digitChar_spec n h).2]
      omega
    · rw [if_neg h]
      have hd : n / 10 < n := Nat.div_lt_self (by omega) (by omega)
      rw [digitsLoop_acc n, digitsLoop_fuel (n / 10) n (n / 10 + 1) (by omega) (by omega)]
      show digitsVal (natDigits (n / 10) ++ [Nat.digitChar (n % 10)]) = n
      rw [digitsVal_append, ih (n / 10) hd]
      have hm : digitsVal [Nat.digitChar (n % 10)] = n % 10 := by
        show 10 * 0 + digitVal (Nat.digitChar (n % 10)) = n % 10
        rw [(digitChar_spec (n % 10) (Nat.mod_lt n (by omega))).2]
        omega
      rw [hm]
      show n / 10 * 10 ^ 1 + n % 10 = n
      omega

/-- Every character the digit accumulator emits is a digit. -/
theorem digitsLoop_digits (fuel : ℕ) : ∀ (n : ℕ) (acc : List Char),
    (∀ c ∈ acc, c.isDigit = true) → ∀ c ∈ digitsLoop fuel n acc, c.isDigit = true := by
  induction fuel with
  | zero => intro n acc hacc; exact hacc
  | succ fuel ih =>
    intro n acc hacc c hc
    unfold digitsLoop at hc
    by_cases h : n < 10
    · rw [if_pos h] at hc
      rcases List.mem_cons.mp hc with rfl | hc
      · exact (digitChar_spec n h).1
      · exact hacc c hc
    · rw [if_neg h] at hc
      refine ih (n / 10) _ ?_ c hc
      intro c2 hc2
      rcases List.mem_cons.mp hc2 with rfl | hc2
      · exact (digitChar_spec (n % 10) (Nat.mod_lt n (by omega))).1
      · exact hacc c2 hc2

/-- Every character of a rendered natural number is a digit. -/
theorem natDigits_digits (n : ℕ) : ∀ c ∈ natDigits n, c.isDigit = true :=
  digitsLoop_digits (n + 1) n [] (by intro c hc; cases hc)

/-- A rendered natural number has at least one digit. -/
theorem natDigits_ne_nil (n : ℕ) : natDigits n ≠ [] := by
  unfold natDigits digitsLoop
  by_cases h : n < 10
  · rw [if_pos h]
    simp
  · rw [if_neg h, digitsLoop_acc]
    simp

/-- Splitting a dot-free chunk yields just that chunk. -/
theorem splitDots_no_dot (cs : List Char) (h : ∀ c ∈ cs, ¬ c = '.') :
    splitDots cs = [cs] := by
  induction cs with
  | nil => rfl
  | cons c cs ih =>
    unfold splitDots
    rw [if_neg (h c (List.mem_cons_self c cs)),
      ih (fun c2 hc2 => h c2 (List.mem_cons_of_mem c hc2))]

/-- Splitting after a dot-free prefix peels that prefix off as one chunk. -/
theorem splitDots_append (a b : List Char) (h : ∀ c ∈ a, ¬ c = '.') :
    splitDots (a ++ '.' :: b) = a :: splitDots b := by
  induction a with
  | nil =>
    show splitDots ('.' :: b) = [] :: splitDots b
    rw [splitDots, if_pos rfl]
  | cons c a ih =>
    show splitDots (c :: (a ++ '.' :: b)) = (c :: a) :: splitDots b
    rw [splitDots, if_neg (h c (List.mem_cons_self c a)),
      ih (fun c2 hc2 => h c2 (List.mem_cons_of_mem c hc2))]

/-- The core parser accepts a digit chunk, a period, and a digit chunk. -/
theorem to_numericCore_parts (neg : Bool) (ip fp : List Char)
    (hip : ∀ c ∈ ip, c.isDigit = true) (hfp : ∀ c ∈ fp, c.isDigit = true)
    (hne : ip ≠ []) :
    to_numericCore neg (ip ++ '.' :: fp) = some (decValue neg ip fp) := by
  unfold to_numericCore
  rw [splitDots_append ip fp (fun c hc => (isDigit_ne c (hip c hc)).1),
    splitDots_no_dot fp (fun c hc => (isDigit_ne c (hfp c hc)).1)]
  show (if (ip ≠ [] ∨ fp ≠ []) ∧ ip.all Char.isDigit ∧ fp.all Char.isDigit then
      some (decValue neg ip fp) else none) = some (decValue neg ip fp)
  rw [if_pos ⟨Or.inl hne, List.all_eq_true.mpr hip, List.all_eq_true.mpr hfp⟩]

/-- The full parser on a minus sign followed by digit-period-digit text. -/
theorem to_numeric_mk_neg (ip fp : List Char)
    (hip : ∀ c ∈ ip, c.isDigit = true) (hfp : ∀ c ∈ fp, c.isDigit = true)
    (hne : ip ≠ []) :
    to_numeric (String.mk ('-' :: (ip ++ '.' :: fp))) = some (decValue true ip fp) := by
  show to_numericCore (stripSign ('-' :: (ip ++ '.' :: fp))).1
    (stripSign ('-' :: (ip ++ '.' :: fp))).2 = some (decValue true ip fp)
  rw [show stripSign ('-' :: (ip ++ '.' :: fp)) = (true, ip ++ '.' :: fp) from by
    simp [stripSign]]
  exact to_numericCore_parts true ip fp hip hfp hne

/-- The full parser on unsigned digit-period-digit text. -/
theorem to_numeric_mk_pos (ip fp : List Char)
    (hip : ∀ c ∈ ip, c.isDigit = true) (hfp : ∀ c ∈ fp, c.isDigit = true)
    (hne : ip ≠ []) :
    to_numeric (String.mk (ip ++ '.' :: fp)) = some (decValue false ip fp) := by
  obtain ⟨c, cs, rfl⟩ := List.exists_cons_of_ne_nil hne
  have hd : c.isDigit = true := hip c (List.mem_cons_self c cs)
  show to_numericCore (stripSign ((c :: cs) ++ '.' :: fp)).1
    (stripSign ((c :: cs) ++ '.' :: fp)).2 = some (decValue false (c :: cs) fp)
  rw [show stripSign ((c :: cs) ++ '.' :: fp) = (false, (c :: cs) ++ '.' :: fp) from by
    simp [stripSign, (isDigit_ne c hd).2.2.1, (isDigit_ne c hd).2.2.2]]
  exact to_numericCore_parts false (c :: cs) fp hip hfp (by simp)

/-- The denominator of a parsed decimal value divides the ten power of its
fraction length. -/
theorem decValue_den_dvd (neg : Bool) (ip fp : List Char) :
    (decValue neg ip fp).den ∣ 10 ^ fp.length := by
  have key : ∀ m : ℤ, (mkRat m (10 ^ fp.length)).den ∣ 10 ^ fp.length := by
    intro m
    have h := Rat.den_dvd m ((10 ^ fp.length : ℕ) : ℤ)
    rw [← Rat.mkRat_eq_divInt] at h
    exact_mod_cast h
  exact key _

/-- A successful parse always returns a parsed-decimal value. -/
theorem to_numericCore_shape (neg : Bool) (rest : List Char) (q : ℚ)
    (h : to_numericCore neg rest = some q) :
    ∃ ip fp, q = decValue neg ip fp := by
  unfold to_numericCore at h
  cases hs : splitDots rest with
  | nil => rw [hs] at h; exact absurd h (by simp)
  | cons a l =>
    cases l with
    | nil =>
      rw [hs] at h
      replace h : (if a ≠ [] ∧ a.all Char.isDigit then some (decValue neg a []) else none) =
        some q := h
      by_cases hc : a ≠ [] ∧ a.all Char.isDigit
      · rw [if_pos hc] at h
        exact ⟨a, [], (Option.some.inj h).symm⟩
      · rw [if_neg hc] at h
        exact absurd h (by simp)
    | cons b l2 =>
      cases l2 with
      | nil =>
        rw [hs] at h
        replace h : (if (a ≠ [] ∨ b ≠ []) ∧ a.all Char.isDigit ∧ b.all Char.isDigit then
            some (decValue neg a b) else none) = some q := h
        by_cases hc : (a ≠ [] ∨ b ≠ []) ∧ a.all Char.isDigit ∧ b.all Char.isDigit
        · rw [if_pos hc] at h
          exact ⟨a, b, (Option.some.inj h).symm⟩
        · rw [if_neg hc] at h
          exact absurd h (by simp)
      | cons c2 t =>
        rw [hs] at h
        replace h : (none : Option ℚ) = some q := h
        exact absurd h (by simp)

/-- The denominator of any successfully parsed string divides a power of
ten. -/
theorem to_numeric_den_dvd (s : String) (q : ℚ) (h : to_numeric s = some q) :
    ∃ K, q.den ∣ 10 ^ K := by
  obtain ⟨ip, fp, rfl⟩ := to_numericCore_shape _ _ q h
  exact ⟨fp.length, decValue_den_dvd _ ip fp⟩

/-- A number dividing some power of ten divides the ten power of the larger
of its 2-adic and 5-adic valuations. -/
theorem dvd_pow_ten_balance (n : ℕ) (hn : n ≠ 0) (K : ℕ) (hK : n ∣ 10 ^ K) :
    n ∣ 10 ^ max (padicValNat 2 n) (padicValNat 5 n) := by
  haveI f5 : Fact (Nat.Prime 5) := ⟨by norm_num⟩
  set a := padicValNat 2 n with ha
  set b := padicValNat 5 n with hb
  have h2 : 2 ^ a ∣ n := pow_padicValNat_dvd
  have h5 : 5 ^ b ∣ n := pow_padicValNat_dvd
  have hcop : Nat.Coprime (2 ^ a) (5 ^ b) := Nat.Coprime.pow _ _ (by decide)
  obtain ⟨m, hm⟩ := hcop.mul_dvd_of_dvd_of_dvd h2 h5
  have hm2 : ¬ 2 ∣ m := by
    rintro ⟨t, ht⟩
    have hdd : 2 ^ (a + 1) ∣ n := by
      rw [hm, ht]
      exact ⟨5 ^ b * t, by ring⟩
    rw [ha] at hdd
    exact pow_succ_padicValNat_not_dvd hn hdd
  have hm5 : ¬ 5 ∣ m := by
    rintro ⟨t, ht⟩
    have hdd : 5 ^ (b + 1) ∣ n := by
      rw [hm, ht]
      exact ⟨2 ^ a * t, by ring⟩
    rw [hb] at hdd
    exact pow_succ_padicValNat_not_dvd hn hdd
  have hmd : m ∣ 10 ^ K := dvd_trans ⟨2 ^ a * 5 ^ b, by rw [hm]; ring⟩ hK
  have hmc : Nat.Coprime m 10 := by
    have c2 : Nat.Coprime m 2 :=
      ((Nat.Prime.coprime_iff_not_dvd Nat.prime_two).mpr hm2).symm
    have c5 : Nat.Coprime m 5 :=
      ((Nat.Prime.coprime_iff_not_dvd (by norm_num)).mpr hm5).symm
    have h10 : Nat.Coprime m (2 * 5) := Nat.Coprime.mul_right c2 c5
    simpa using h10
  have hm1 : m = 1 := (hmc.pow_right K).eq_one_of_dvd hmd
  rw [hm, hm1, mul_one, show (10 : ℕ) = 2 * 5 from rfl, Nat.mul_pow]
  exact Nat.mul_dvd_mul (pow_dvd_pow 2 (le_max_left _ _)) (pow_dvd_pow 5 (le_max_right _ _))

/-- The renderer's decimal-place count clears the denominator of any value
whose denominator divides a power of ten. -/
theorem den_dvd_pow_decExp (q : ℚ) (K : ℕ) (hK : q.den ∣ 10 ^ K) :
    q.den ∣ 10 ^ decExp q :=
  dvd_pow_ten_balance q.den q.den_nz K hK

/-- Identity behind the render round trip: a natural `N` and ten power
`10 ^ L` standing in the same ratio as `|q.num|` to `q.den` reconstitute `q`
once the sign is restored. -/
theorem mkRat_sign_eq (q : ℚ) (N L : ℕ)
    (hpos : (N : ℚ) / 10 ^ L = (q.num.natAbs : ℚ) / (q.den : ℚ)) :
    (0 ≤ q.num → mkRat (N : ℤ) (10 ^ L) = q) ∧
    (q.num < 0 → mkRat (-(N : ℤ)) (10 ^ L) = q) := by
  constructor
  · intro hn
    rw [Rat.mkRat_eq_div]
    push_cast
    rw [hpos, Nat.cast_natAbs, Int.cast_abs, abs_of_nonneg (by exact_mod_cast hn)]
    exact Rat.num_div_den q
  · intro hn
    rw [Rat.mkRat_eq_div]
    push_cast
    rw [neg_div, hpos, Nat.cast_natAbs, Int.cast_abs,
      abs_of_neg (by exact_mod_cast hn), neg_div, neg_neg]
    exact Rat.num_div_den q

/-- Every character of the padded digit list is a digit. -/
theorem padDigits_digits (k m : ℕ) : ∀ c ∈ padDigits k m, c.isDigit = true := by
  intro c hc
  unfold padDigits at hc
  by_cases h : (natDigits m).length ≤ k
  · rw [if_pos h] at hc
    rcases List.mem_append.mp hc with hc | hc
    · rw [List.eq_of_mem_replicate hc]
      decide
    · exact natDigits_digits m c hc
  · rw [if_neg h] at hc
    exact natDigits_digits m c hc

/-- The padded digit list reads back to the rendered number. -/
theorem padDigits_val (k m : ℕ) : digitsVal (padDigits k m) = m := by
  unfold padDigits
  by_cases h : (natDigits m).length ≤ k
  · rw [if_pos h, digitsVal_replicate_zero, digitsVal_natDigits]
  · rw [if_neg h, digitsVal_natDigits]

/-- The padded digit list always has a digit left of the decimal point. -/
theorem padDigits_length (k m : ℕ) : k + 1 ≤ (padDigits k m).length := by
  unfold padDigits
  by_cases h : (natDigits m).length ≤ k
  · rw [if_pos h, List.length_append, List.length_replicate]
    omega
  · rw [if_neg h]
    have h1 : 0 < (natDigits m).length := List.length_pos.mpr (natDigits_ne_nil m)
    omega

/-- Parsing the rendered text of a value whose denominator divides a power of
ten recovers the value exactly. -/
theorem to_numeric_render_float (q : ℚ) (K : ℕ) (hK : q.den ∣ 10 ^ K) :
    to_numeric (render_float q) = some q := by
  obtain ⟨c, hc⟩ : q.den ∣ 10 ^ decExp q := den_dvd_pow_decExp q K hK
  have hden0 : q.den ≠ 0 := q.den_nz
  have hc0 : c ≠ 0 := by
    intro h0
    rw [h0, mul_zero] at hc
    exact pow_ne_zero (decExp q) (by norm_num) hc
  have hm : q.num.natAbs * 10 ^ decExp q / q.den = q.num.natAbs * c := by
    rw [hc, show q.num.natAbs * (q.den * c) = q.den * (q.num.natAbs * c) from by ring,
      Nat.mul_div_cancel_left _ (Nat.pos_of_ne_zero hden0)]
  have hcQ : (10 : ℚ) ^ decExp q = (q.den : ℚ) * (c : ℚ) := by
    exact_mod_cast hc
  have hratio : ((q.num.natAbs * 10 ^ decExp q / q.den : ℕ) : ℚ) / 10 ^ decExp q =
      (q.num.natAbs : ℚ) / (q.den : ℚ) := by
    rw [hm]
    push_cast
    rw [hcQ]
    exact mul_div_mul_right _ _ (by exact_mod_cast hc0)
  have hdigits : ∀ ch ∈ renderDigits q, ch.isDigit = true := padDigits_digits _ _
  have hval : digitsVal (renderDigits q) = q.num.natAbs * 10 ^ decExp q / q.den :=
    padDigits_val _ _
  have hlen : decExp q + 1 ≤ (renderDigits q).length := padDigits_length _ _
  have hipd : ∀ ch ∈ (renderDigits q).take ((renderDigits q).length - decExp q),
      ch.isDigit = true := fun ch hch => hdigits ch (List.take_subset _ _ hch)
  have hipne : (renderDigits q).take ((renderDigits q).length - decExp q) ≠ [] := by
    have hp : 0 < ((renderDigits q).take ((renderDigits q).length - decExp q)).length := by
      rw [List.length_take]
      omega
    exact List.length_pos.mp hp
  have hfpd : ∀ ch ∈ (if decExp q = 0 then ['0']
      else (renderDigits q).drop ((renderDigits q).length - decExp q)), ch.isDigit = true := by
    intro ch hch
    by_cases k0 : decExp q = 0
    · rw [if_pos k0] at hch
      rcases List.mem_cons.mp hch with rfl | hch
      · decide
      · cases hch
    · rw [if_neg k0] at hch
      exact hdigits ch (List.drop_subset _ _ hch)
  have hfinal : ∀ ip fp : List Char,
      ip = (renderDigits q).take ((renderDigits q).length - decExp q) →
      fp = (if decExp q = 0 then ['0']
            else (renderDigits q).drop ((renderDigits q).length - decExp q)) →
      ((digitsVal ip * 10 ^ fp.length + digitsVal fp : ℕ) : ℚ) / 10 ^ fp.length =
        (q.num.natAbs : ℚ) / (q.den : ℚ) := by
    intro ip fp hip hfp
    by_cases k0 : decExp q = 0
    · have hden1 : q.den = 1 := by
        rw [k0, pow_zero] at hc
        exact Nat.dvd_one.mp ⟨c, hc⟩
      have hc1 : c = 1 := by
        rw [k0, pow_zero, hden1, one_mul] at hc
        omega
      rw [hip, hfp, if_pos k0, k0, Nat.sub_zero, List.take_length, hval, hm, hc1, mul_one,
        hden1, show digitsVal ['0'] = 0 from by decide]
      push_cast
      norm_num
    · rw [hip, hfp, if_neg k0]
      have hfplen : ((renderDigits q).drop ((renderDigits q).length - decExp q)).length =
          decExp q := by
        rw [List.length_drop]
        omega
      rw [← digitsVal_append, List.take_append_drop, hval, hfplen]
      exact hratio
  have hposN := hfinal _ _ rfl rfl
  by_cases hneg : q.num < 0
  · have h1 : to_numeric (render_float q) = some (decValue true
        ((renderDigits q).take ((renderDigits q).length - decExp q))
        (if decExp q = 0 then ['0']
         else (renderDigits q).drop ((renderDigits q).length - decExp q))) := by
      show to_numeric (String.mk ((if q.num < 0 then ['-'] else []) ++
        (renderDigits q).take ((renderDigits q).length - decExp q) ++
        '.' :: (if decExp q = 0 then ['0']
                else (renderDigits q).drop ((renderDigits q).length - decExp q)))) = _
      rw [show (if q.num < 0 then ['-'] else []) = ['-'] from if_pos hneg]
      exact to_numeric_mk_neg _ _ hipd hfpd hipne
    have hdec : decValue true
        ((renderDigits q).take ((renderDigits q).length - decExp q))
        (if decExp q = 0 then ['0']
         else (renderDigits q).drop ((renderDigits q).length - decExp q)) = q := by
      show mkRat (-((digitsVal ((renderDigits q).take ((renderDigits q).length - decExp q)) *
        10 ^ (if decExp q = 0 then ['0']
              else (renderDigits q).drop ((renderDigits q).length - decExp q)).length +
        digitsVal (if decExp q = 0 then ['0']
              else (renderDigits q).drop ((renderDigits q).length - decExp q)) : ℕ) : ℤ))
        (10 ^ (if decExp q = 0 then ['0']
              else (renderDigits q).drop ((renderDigits q).length - decExp q)).length) = q
      exact (mkRat_sign_eq q _ _ hposN).2 hneg
    rw [h1, hdec]
  · have hnn : 0 ≤ q.num := not_lt.mp hneg
    have h1 : to_numeric (render_float q) = some (decValue false
        ((renderDigits q).take ((renderDigits q).length - decExp q))
        (if decExp q = 0 then ['0']
         else (renderDigits q).drop ((renderDigits q).length - decExp q))) := by
      show to_numeric (String.mk ((if q.num < 0 then ['-'] else []) ++
        (renderDigits q).take ((renderDigits q).length - decExp q) ++
        '.' :: (if decExp q = 0 then ['0']
                else (renderDigits q).drop ((renderDigits q).length - decExp q)))) = _
      rw [show (if q.num < 0 then ['-'] else []) = ([] : List Char) from if_neg hneg]
      exact to_numeric_mk_pos _ _ hipd hfpd hipne
    have hdec : decValue false
        ((renderDigits q).take ((renderDigits q).length - decExp q))
        (if decExp q = 0 then ['0']
         else (renderDigits q).drop ((renderDigits q).length - decExp q)) = q := by
      show mkRat (((digitsVal ((renderDigits q).take ((renderDigits q).length - decExp q)) *
        10 ^ (if decExp q = 0 then ['0']
              else (renderDigits q).drop ((renderDigits q).length - decExp q)).length +
        digitsVal (if decExp q = 0 then ['0']
              else (renderDigits q).drop ((renderDigits q).length - decExp q)) : ℕ) : ℤ))
        (10 ^ (if decExp q = 0 then ['0']
              else (renderDigits q).drop ((renderDigits q).length - decExp q)).length) = q
      exact (mkRat_sign_eq q _ _ hposN).1 hnn
    rw [h1, hdec]

/-- Replacement of commas is the identity on comma-free text. -/
theorem replace_comma_id (s : String) (h : ∀ c ∈ s.data, ¬ c = ',') :
    replace_comma s = s := by
  unfold replace_comma
  have hmap : s.data.map (fun c => if c = ',' then '.' else c) = s.data.map id :=
    List.map_congr_left (fun c hc => if_neg (h c hc))
  rw [hmap, List.map_id]

/-- The renderer never emits a comma. -/
theorem render_float_no_comma (q : ℚ) : ∀ c ∈ (render_float q).data, ¬ c = ',' := by
  intro c hc
  have hc2 : c ∈ (if q.num < 0 then ['-'] else []) ++
      (renderDigits q).take ((renderDigits q).length - decExp q) ++
      '.' :: (if decExp q = 0 then ['0']
              else (renderDigits q).drop ((renderDigits q).length - decExp q)) := hc
  rcases List.mem_append.mp hc2 with hpre | htail
  · rcases List.mem_append.mp hpre with hsign | hip
    · by_cases hneg : q.num < 0
      · rw [if_pos hneg] at hsign
        rcases List.mem_cons.mp hsign with rfl | hsign
        · decide
        · cases hsign
      · rw [if_neg hneg] at hsign
        cases hsign
    · exact (isDigit_ne c (padDigits_digits _ _ c (List.take_subset _ _ hip))).2.1
  · rcases List.mem_cons.mp htail with rfl | hfp
    · decide
    · by_cases k0 : decExp q = 0
      · rw [if_pos k0] at hfp
        rcases List.mem_cons.mp hfp with rfl | hfp
        · decide
        · cases hfp
      · rw [if_neg k0] at hfp
        exact (isDigit_ne c (padDigits_digits _ _ c (List.drop_subset _ _ hfp))).2.1

/-- C8: the coordinate normalization is idempotent — a value it produced,
stringified, comma-repaired and parsed again, parses to the same numeric
value. -/
theorem claim_C8 (c : Cell) (q : ℚ) (h : clean_coord c = some q) :
    clean_coord (Cell.num q) = some q := by
  obtain ⟨K, hK⟩ := to_numeric_den_dvd _ q h
  show to_numeric (replace_comma (render_float q)) = some q
  rw [replace_comma_id _ (render_float_no_comma q)]
  exact to_numeric_render_float q K hK

/-- C8 (witness): the normalized value of the text `"5,5"` re-normalizes to
itself. -/
theorem claim_C8_witness :
    clean_coord (Cell.str "5,5") = some (mkRat 55 10) ∧
    clean_coord (Cell.num (mkRat 55 10)) = some (mkRat 55 10) :=
  ⟨by decide, claim_C8 (Cell.str "5,5") (mkRat 55 10) (by decide)⟩
